import Mathlib

/- Verification development for the webhangin backend signaling core.
   The data model and operations below are shallow embeddings of the Rust
   sources: main.rs (activity routing, room resolution), streaming/room.rs
   (Room and RoomOwner) and streaming/handler.rs (StreamingSession message
   handlers).  HashMap fields are modelled as association lists whose insert
   replaces the bound value of an existing key; UUID minting and actor
   addresses are modelled as parameters constrained by freshness hypotheses. -/

namespace Webhangin

/- Association-list map primitives modelling std HashMap operations. -/

def lookupA {κ β : Type} [DecidableEq κ] (k : κ) : List (κ × β) → Option β
  | [] => none
  | (k2, v) :: rest => if k2 = k then some v else lookupA k rest

def eraseA {κ β : Type} [DecidableEq κ] (k : κ) (m : List (κ × β)) : List (κ × β) :=
  m.filter (fun p => decide (p.1 ≠ k))

def insertA {κ β : Type} [DecidableEq κ] (k : κ) (v : β) (m : List (κ × β)) : List (κ × β) :=
  (k, v) :: eraseA k m

def keysA {κ β : Type} (m : List (κ × β)) : List κ :=
  m.map (fun p => p.1)

/- Lower-casing and substring search, modelling str::to_lowercase and
   str::contains from main.rs (the activities in the routing table are
   ASCII, where the two lowercasing functions agree). -/

def strToLower (s : String) : String :=
  ⟨s.data.map Char.toLower⟩

def listStartsWith {α : Type} [DecidableEq α] : List α → List α → Bool
  | [], _ => true
  | _ :: _, [] => false
  | a :: as, b :: bs => decide (a = b) && listStartsWith as bs

def listHasSeg {α : Type} [DecidableEq α] (pat : List α) : List α → Bool
  | [] => listStartsWith pat []
  | a :: rest => listStartsWith pat (a :: rest) || listHasSeg pat rest

def strContains (s pat : String) : Bool :=
  listHasSeg pat.data s.data

/- Shallow embedding of activity_to_room from main.rs lines 38-55. -/

def activity_to_room (activity : String) : String × String :=
  let al := strToLower activity
  if strContains al "music" || strContains al "guitar" || strContains al "piano" then
    ("music-lounge", "Music Lounge")
  else if strContains al "art" || strContains al "draw" || strContains al "paint" then
    ("art-studio", "Art Studio")
  else if strContains al "code" || strContains al "program" || strContains al "study" then
    ("focus-den", "Focus Den")
  else if strContains al "game" || strContains al "gaming" then
    ("gaming-corner", "Gaming Corner")
  else if strContains al "watching" || strContains al "movie" || strContains al "judge" || strContains al "judging" then
    ("cinema", "Cinema")
  else if strContains al "party" || strContains al "city" || strContains al "walking" then
    ("city", "City")
  else
    ("hangout-hub", "Hangout Hub")

/-- The closed seven-entry routing table of the specification. -/
def roomTable : List (String × String) :=
  [("music-lounge", "Music Lounge"), ("art-studio", "Art Studio"),
   ("focus-den", "Focus Den"), ("gaming-corner", "Gaming Corner"),
   ("cinema", "Cinema"), ("city", "City"), ("hangout-hub", "Hangout Hub")]

/- Data model from streaming/handler.rs. -/

/-- Serializable ICE server description forwarded to clients. -/
structure IceServerConfig where
  urls : List String
  username : String
  credential : String
deriving DecidableEq

/-- Position in the game world; the three f32 coordinates. -/
structure Position where
  x : Float
  y : Float
  z : Float

/-- Default position, all coordinates zero. -/
def Position.origin : Position := ⟨0.0, 0.0, 0.0⟩

/-- Facial feature customization bundle, passed through unchanged. -/
structure FacialFeatures where
  eye_style : String
  nose_style : String
  mouth_style : String
  character_type : String
deriving DecidableEq

/-- Player data for game state. -/
structure PlayerData where
  id : String
  name : String
  color : String
  activity : String
  facial_features : FacialFeatures
  position : Position
  rotation : Float
  is_moving : Bool

/-- Actor address of a session, abstracted to a number. -/
abbrev Addr := Nat

/- Room from streaming/room.rs.  players maps player_id to the session
   address and player data; publishers maps publisher_id to player_id. -/

structure RoomData where
  id : String
  theme : String
  players : List (String × Addr × PlayerData)
  publishers : List (String × String)

/-- Room construction (Room::new): empty player and publisher maps. -/
def Room.new (id theme : String) : RoomData :=
  ⟨id, theme, [], []⟩

/-- Room::add_player.  The freshly minted UUID is the freshId parameter;
the prototype is stored with id set and position, rotation and is_moving
zeroed. -/
def Room.add_player (room : RoomData) (freshId : String) (addr : Addr) (player_data : PlayerData) : String × RoomData :=
  let pd := { player_data with
    id := freshId, position := Position.origin, rotation := 0.0, is_moving := false }
  (freshId, { room with players := insertA freshId (addr, pd) room.players })

/-- Room::remove_player_by_addr: linear scan for the entry holding the
address, removal by its key, returning the remaining count. -/
def Room.remove_player_by_addr (room : RoomData) (addr : Addr) : Option (String × Nat) × RoomData :=
  match room.players.find? (fun p => decide (p.2.1 = addr)) with
  | some p =>
      let players2 := eraseA p.1 room.players
      (some (p.1, players2.length), { room with players := players2 })
  | none => (none, room)

/-- Entry transformer of Room::update_player_position: the entry keyed by
player_id gets position, rotation and is_moving overwritten. -/
def updEntry (player_id : String) (position : Position) (rotation : Float) (is_moving : Bool)
    (p : String × Addr × PlayerData) : String × Addr × PlayerData :=
  if p.1 = player_id then
    (p.1, p.2.1, { p.2.2 with position := position, rotation := rotation, is_moving := is_moving })
  else p

/-- Room::update_player_position. -/
def Room.update_player_position (room : RoomData) (player_id : String) (position : Position)
    (rotation : Float) (is_moving : Bool) : RoomData :=
  { room with players := room.players.map (updEntry player_id position rotation is_moving) }

/-- Room::get_player_data. -/
def Room.get_player_data (room : RoomData) (player_id : String) : Option PlayerData :=
  (lookupA player_id room.players).map (fun e => e.2)

/-- Room::get_all_players. -/
def Room.get_all_players (room : RoomData) : List PlayerData :=
  room.players.map (fun p => p.2.2)

/-- Room::get_peers: addresses of all entries keyed by a different player id. -/
def Room.get_peers (room : RoomData) (player_id : String) : List Addr :=
  (room.players.filter (fun p => decide (p.1 ≠ player_id))).map (fun p => p.2.1)

/-- Room::get_all_addrs. -/
def Room.get_all_addrs (room : RoomData) : List Addr :=
  room.players.map (fun p => p.2.1)

/-- Room::register_publisher. -/
def Room.register_publisher (room : RoomData) (publisher_id player_id : String) : RoomData :=
  { room with publishers := insertA publisher_id player_id room.publishers }

/-- Room::unregister_publisher. -/
def Room.unregister_publisher (room : RoomData) (publisher_id : String) : RoomData :=
  { room with publishers := eraseA publisher_id room.publishers }

/-- Room::get_all_publishers. -/
def Room.get_all_publishers (room : RoomData) : List (String × String) :=
  room.publishers

/- RoomOwner from streaming/room.rs (the registry). -/

structure OwnerData where
  rooms : List (String × RoomData)

/-- RoomOwner::find_by_id. -/
def RoomOwner.find_by_id (owner : OwnerData) (room_id : String) : Option RoomData :=
  lookupA room_id owner.rooms

/-- RoomOwner::create_new_room: construct a fresh Room and insert it. -/
def RoomOwner.create_new_room (owner : OwnerData) (room_id theme : String) : RoomData × OwnerData :=
  let room := Room.new room_id theme
  (room, { rooms := insertA room_id room owner.rooms })

/-- RoomOwner::remove_room: unconditional removal of the key. -/
def RoomOwner.remove_room (owner : OwnerData) (room_id : String) : OwnerData :=
  { rooms := eraseA room_id owner.rooms }

/-- Room resolution step of websocket_handler in main.rs: find the room by
id and reuse it, otherwise create and insert a new one. -/
def websocket_resolve_room (owner : OwnerData) (room_id theme : String) : RoomData × OwnerData :=
  match RoomOwner.find_by_id owner room_id with
  | some room => (room, owner)
  | none => RoomOwner.create_new_room owner room_id theme

/- Outbound frames (the SendingMessage enum of handler.rs); SDP and ICE
   payloads are opaque strings. -/

inductive Frame where
  | pong
  | answer (sdp : String)
  | offer (sdp : String)
  | publisherIce (candidate : String)
  | subscriberIce (candidate : String)
  | published (publisher_ids : List String) (player_id : String)
  | subscribed (subscriber_id : String)
  | subscribeFailed (publisher_id error : String)
  | unpublished (publisher_id : String)
  | chatMessage (sender message : String)
  | roomState (your_player_id : String) (players : List PlayerData) (room_theme : String)
      (ice_servers : List IceServerConfig)
  | playerJoined (player : PlayerData)
  | playerLeft (player_id : String)
  | playerMoved (player_id : String) (position : Position) (rotation : Float) (is_moving : Bool)
  | playerAnimation (player_id animation : String)

/- Session lifecycle and message handlers from streaming/handler.rs,
   modelled as functions returning the updated state together with the
   ordered list of enqueued (recipient address, frame) events. -/

/-- StreamingSession::started (handler.rs lines 148-167): add the player to
the room, send RoomState to the session itself, then PlayerJoined to every
peer.  Returns the updated room, the assigned player id and the event list
in emission order. -/
def StreamingSession.started (room : RoomData) (selfAddr : Addr) (freshId : String)
    (player_data : PlayerData) (ice_servers : List IceServerConfig) :
    RoomData × String × List (Addr × Frame) :=
  let pr := Room.add_player room freshId selfAddr player_data
  let player_id := pr.1
  let room2 := pr.2
  let players := Room.get_all_players room2
  let ev0 := (selfAddr, Frame.roomState player_id players room2.theme ice_servers)
  let rest :=
    match Room.get_player_data room2 player_id with
    | some npd => (Room.get_peers room2 player_id).map (fun a => (a, Frame.playerJoined npd))
    | none => []
  (room2, player_id, ev0 :: rest)

/-- StreamingSession::stopped (handler.rs lines 169-207): unregister every
owned publisher broadcasting unpublished, broadcast playerLeft to peers,
remove the player by address, and when the remaining count is zero remove
the room from the registry. -/
def StreamingSession.stopped (room : RoomData) (owner : OwnerData) (selfAddr : Addr)
    (player_id : String) (ownedPubs : List String) :
    RoomData × OwnerData × List (Addr × Frame) :=
  let peers := Room.get_peers room player_id
  let room1 := ownedPubs.foldl Room.unregister_publisher room
  let unpubEvents := (ownedPubs.map (fun p => peers.map (fun a => (a, Frame.unpublished p)))).flatten
  let leftEvents := peers.map (fun a => (a, Frame.playerLeft player_id))
  match Room.remove_player_by_addr room1 selfAddr with
  | (some pr, room2) =>
      if pr.2 = 0 then (room2, RoomOwner.remove_room owner room1.id, unpubEvents ++ leftEvents)
      else (room2, owner, unpubEvents ++ leftEvents)
  | (none, room2) => (room2, owner, unpubEvents ++ leftEvents)

/-- ChatMessage handler (handler.rs lines 420-429): broadcast to all
member addresses, the sender included, with sender set to the display
name of the sending player. -/
def handleChatMessage (room : RoomData) (senderName message : String) : List (Addr × Frame) :=
  (Room.get_all_addrs room).map (fun a => (a, Frame.chatMessage senderName message))

/-- PlayerMove handler (handler.rs lines 430-442): update the room state,
then broadcast playerMoved to peers only. -/
def handlePlayerMove (room : RoomData) (player_id : String) (position : Position)
    (rotation : Float) (is_moving : Bool) : RoomData × List (Addr × Frame) :=
  let room2 := Room.update_player_position room player_id position rotation is_moving
  (room2, (Room.get_peers room2 player_id).map
    (fun a => (a, Frame.playerMoved player_id position rotation is_moving)))

/-- PlayAnimation handler (handler.rs lines 443-452): broadcast
playerAnimation to peers only. -/
def handlePlayAnimation (room : RoomData) (player_id animation : String) : List (Addr × Frame) :=
  (Room.get_peers room player_id).map (fun a => (a, Frame.playerAnimation player_id animation))

/-- Publish completion success path (handler.rs lines 370-385): store the
publisher under its track id in the session map, register the binding in
the room, and broadcast published to peers.  The publisher handle is an
abstract token. -/
def handlePublishOk (room : RoomData) (player_id : String) (sessPubs : List (String × Nat))
    (track_id : String) (handle : Nat) : RoomData × List (String × Nat) × List (Addr × Frame) :=
  let sessPubs2 := insertA track_id handle sessPubs
  let room2 := Room.register_publisher room track_id player_id
  let peers := Room.get_peers room2 player_id
  (room2, sessPubs2, peers.map (fun a => (a, Frame.published [track_id] player_id)))

/-- StopPublish handler (handler.rs lines 398-411): when the session owns
the publisher, remove it from the session map, close it, unregister the
binding and broadcast unpublished to peers; otherwise do nothing.  The
list of closed handles is returned alongside. -/
def handleStopPublish (room : RoomData) (player_id : String) (sessPubs : List (String × Nat))
    (publisher_id : String) :
    RoomData × List (String × Nat) × List Nat × List (Addr × Frame) :=
  match lookupA publisher_id sessPubs with
  | some h =>
      let sessPubs2 := eraseA publisher_id sessPubs
      let room2 := Room.unregister_publisher room publisher_id
      (room2, sessPubs2, [h],
        (Room.get_peers room2 player_id).map (fun a => (a, Frame.unpublished publisher_id)))
  | none => (room, sessPubs, [], [])

/- Subscribe with bounded retry (handler.rs lines 311-344).  The SFU
   subscribe call is an oracle from the attempt index to a result. -/

/-- Delay in milliseconds before a given attempt: the loop sleeps
100 * (1 shifted left by attempt - 1) ms when attempt is positive and does
not sleep before attempt 0. -/
def delayBefore (attempt : Nat) : Nat :=
  if attempt > 0 then 100 * (1 <<< (attempt - 1)) else 0

/-- Outcome record of the subscribe loop: delays observed before each
attempt, number of attempts made, frames sent and the stored
subscriber id. -/
structure SubscribeOut where
  delays : List Nat
  tried : Nat
  frames : List Frame
  stored : Option String

/-- Body of the retry loop for subscribe, structural on the remaining
attempt budget.  On success the subscriber is stored and offer then
subscribed are sent; on exhaustion a single subscribeFailed carrying the
last error is sent. -/
def subscribeLoop (oracle : Nat → Except String (String × String)) (pub_id : String) :
    Nat → Nat → String → SubscribeOut
  | 0, _, lastErr =>
      { delays := [], tried := 0, frames := [Frame.subscribeFailed pub_id lastErr], stored := none }
  | remaining + 1, attempt, _ =>
      match oracle attempt with
      | Except.ok (subId, offerSdp) =>
          { delays := [delayBefore attempt], tried := 1,
            frames := [Frame.offer offerSdp, Frame.subscribed subId], stored := some subId }
      | Except.error e =>
          let rest := subscribeLoop oracle pub_id remaining (attempt + 1) e
          { delays := delayBefore attempt :: rest.delays, tried := 1 + rest.tried,
            frames := rest.frames, stored := rest.stored }

/-- Subscribe handler: at most five attempts starting from attempt 0 with
an empty last error. -/
def handleSubscribe (oracle : Nat → Except String (String × String)) (pub_id : String) :
    SubscribeOut :=
  subscribeLoop oracle pub_id 5 0 ""

/- Transition system for the room invariant: the reachable states of one
   room under join, publish, stop-publish and session-close, tracking the
   per-session owned publisher keys next to the shared room. -/

/-- Key insertion into a key list, mirroring a HashMap key set. -/
def insertK (k : String) (l : List String) : List String :=
  k :: l.filter (fun x => decide (x ≠ k))

/-- Key removal from a key list. -/
def eraseK (k : String) (l : List String) : List String :=
  l.filter (fun x => decide (x ≠ k))

/-- Per-session state relevant to the publisher invariant: the player id
assigned at registration and the keys of the owned publisher map. -/
structure SessionSt where
  player_id : String
  ownedPubs : List String

/-- Global state: the shared room and the live sessions keyed by address. -/
structure SysSt where
  room : RoomData
  sessions : List (Addr × SessionSt)

/-- Join: Room::add_player in started plus registration of the session. -/
def opJoin (st : SysSt) (addr : Addr) (freshId : String) (proto : PlayerData) : SysSt :=
  let pr := Room.add_player st.room freshId addr proto
  { room := pr.2, sessions := insertA addr ⟨pr.1, []⟩ st.sessions }

/-- Publish completion: the session stores the track key and registers the
binding for its own player id in the room. -/
def opPublish (st : SysSt) (addr : Addr) (track : String) : SysSt :=
  match lookupA addr st.sessions with
  | some s =>
      { room := Room.register_publisher st.room track s.player_id,
        sessions := insertA addr ⟨s.player_id, insertK track s.ownedPubs⟩ st.sessions }
  | none => st

/-- StopPublish: when the session owns the key it is removed from both the
session map and the room index. -/
def opStopPublish (st : SysSt) (addr : Addr) (pubId : String) : SysSt :=
  match lookupA addr st.sessions with
  | some s =>
      if pubId ∈ s.ownedPubs then
        { room := Room.unregister_publisher st.room pubId,
          sessions := insertA addr ⟨s.player_id, eraseK pubId s.ownedPubs⟩ st.sessions }
      else st
  | none => st

/-- Session close (stopped): every owned publisher is unregistered from the
room, then the player is removed by address and the session goes away. -/
def opClose (st : SysSt) (addr : Addr) : SysSt :=
  match lookupA addr st.sessions with
  | some s =>
      let room1 := s.ownedPubs.foldl Room.unregister_publisher st.room
      let room2 := (Room.remove_player_by_addr room1 addr).2
      { room := room2, sessions := eraseA addr st.sessions }
  | none => st

/-- One step of the system.  The join constructor carries the freshness of
the minted UUID and of the new actor address. -/
inductive Step : SysSt → SysSt → Prop where
  | join (st : SysSt) (addr : Addr) (freshId : String) (proto : PlayerData)
      (h1 : freshId ∉ keysA st.room.players)
      (h2 : addr ∉ Room.get_all_addrs st.room)
      (h3 : addr ∉ keysA st.sessions) :
      Step st (opJoin st addr freshId proto)
  | publish (st : SysSt) (addr : Addr) (track : String) :
      Step st (opPublish st addr track)
  | stopPub (st : SysSt) (addr : Addr) (pubId : String) :
      Step st (opStopPublish st addr pubId)
  | close (st : SysSt) (addr : Addr) :
      Step st (opClose st addr)

/-- States reachable from a freshly created room with no sessions. -/
inductive Reachable (room_id theme : String) : SysSt → Prop where
  | init : Reachable room_id theme ⟨Room.new room_id theme, []⟩
  | step (st st2 : SysSt) : Reachable room_id theme st → Step st st2 →
      Reachable room_id theme st2

/-- Inductive invariant: every publisher binding is owned by a live
session whose player id it carries; every live session is registered in
the player map under its own address; player addresses and session
addresses are duplicate-free. -/
def Inv (st : SysSt) : Prop :=
  (∀ q ∈ st.room.publishers, ∃ p ∈ st.sessions, p.2.player_id = q.2 ∧ q.1 ∈ p.2.ownedPubs) ∧
  (∀ p ∈ st.sessions, ∃ e, lookupA p.2.player_id st.room.players = some e ∧ e.1 = p.1) ∧
  (Room.get_all_addrs st.room).Nodup ∧
  (keysA st.sessions).Nodup

/- Concrete fixtures used to evaluate the theorems on closed inputs. -/

/-- Sample client-provided player prototype. -/
def samplePlayer : PlayerData :=
  { id := "", name := "C1", color := "red", activity := "coding",
    facial_features := ⟨"e", "n", "m", "cat"⟩, position := Position.origin,
    rotation := 0.0, is_moving := false }

/-- Sample stored player entry, as minted for samplePlayer. -/
def sampleMinted (freshId : String) : PlayerData :=
  { samplePlayer with
    id := freshId, position := Position.origin, rotation := 0.0, is_moving := false }

/-- Sample one-player room used by concrete witnesses. -/
def sampleRoom : RoomData :=
  { id := "focus-den", theme := "Focus Den",
    players := [("p1", 7, sampleMinted "p1")], publishers := [] }

/- Helper lemmas about the association-list primitives. -/

theorem lookupA_cons {κ β : Type} [DecidableEq κ] (k k2 : κ) (v : β) (rest : List (κ × β)) :
    lookupA k ((k2, v) :: rest) = if k2 = k then some v else lookupA k rest := rfl

theorem eraseA_cons {κ β : Type} [DecidableEq κ] (k k2 : κ) (v : β) (rest : List (κ × β)) :
    eraseA k ((k2, v) :: rest) =
      if k2 = k then eraseA k rest else (k2, v) :: eraseA k rest := by
  simp only [eraseA, List.filter_cons]
  by_cases h : k2 = k <;> simp [h]

theorem lookupA_mem {κ β : Type} [DecidableEq κ] {k : κ} {v : β} {m : List (κ × β)}
    (h : lookupA k m = some v) : (k, v) ∈ m := by
  induction m with
  | nil => simp [lookupA] at h
  | cons p rest ih =>
      obtain ⟨k2, v2⟩ := p
      rw [lookupA_cons] at h
      by_cases hk : k2 = k
      · rw [if_pos hk] at h
        injection h with hv
        subst hk
        subst hv
        exact List.mem_cons_self _ _
      · rw [if_neg hk] at h
        exact List.mem_cons_of_mem _ (ih h)

theorem mem_keysA {κ β : Type} {k : κ} {m : List (κ × β)} :
    k ∈ keysA m ↔ ∃ v, (k, v) ∈ m := by
  simp only [keysA, List.mem_map]
  constructor
  · rintro ⟨⟨k2, v⟩, hmem, rfl⟩
    exact ⟨v, hmem⟩
  · rintro ⟨v, hmem⟩
    exact ⟨(k, v), hmem, rfl⟩

theorem mem_eraseA {κ β : Type} [DecidableEq κ] {q : κ × β} {k : κ} {m : List (κ × β)} :
    q ∈ eraseA k m ↔ q ∈ m ∧ q.1 ≠ k := by
  simp [eraseA, List.mem_filter]

theorem eraseA_sublist {κ β : Type} [DecidableEq κ] (k : κ) (m : List (κ × β)) :
    (eraseA k m).Sublist m :=
  List.filter_sublist m

theorem lookupA_eraseA_ne {κ β : Type} [DecidableEq κ] {k k2 : κ} (m : List (κ × β))
    (h : k ≠ k2) : lookupA k (eraseA k2 m) = lookupA k m := by
  induction m with
  | nil => rfl
  | cons p rest ih =>
      obtain ⟨k3, v3⟩ := p
      rw [eraseA_cons, lookupA_cons]
      by_cases h3 : k3 = k2
      · rw [if_pos h3, if_neg (fun hh : k3 = k => h (hh ▸ h3 ▸ rfl))]
        exact ih
      · rw [if_neg h3, lookupA_cons]
        by_cases hk : k3 = k
        · rw [if_pos hk, if_pos hk]
        · rw [if_neg hk, if_neg hk]
          exact ih

theorem keysA_notMem_eraseA {κ β : Type} [DecidableEq κ] (k : κ) (m : List (κ × β)) :
    k ∉ keysA (eraseA k m) := by
  simp only [keysA, List.mem_map, not_exists]
  rintro ⟨k2, v⟩ ⟨hmem, rfl⟩
  rcases mem_eraseA.mp hmem with ⟨_, hne⟩
  exact hne rfl

theorem eraseA_eq_self {κ β : Type} [DecidableEq κ] {k : κ} {m : List (κ × β)}
    (h : k ∉ keysA m) : eraseA k m = m := by
  apply List.filter_eq_self.mpr
  intro p hp
  simp only [decide_eq_true_eq]
  intro hpk
  exact h (mem_keysA.mpr ⟨p.2, by rw [← hpk]; exact hp⟩)

theorem lookupA_insertA_self {κ β : Type} [DecidableEq κ] (k : κ) (v : β) (m : List (κ × β)) :
    lookupA k (insertA k v m) = some v := by
  simp [insertA, lookupA]

theorem lookupA_insertA_ne {κ β : Type} [DecidableEq κ] {k k2 : κ} (v : β) (m : List (κ × β))
    (h : k ≠ k2) : lookupA k (insertA k2 v m) = lookupA k m := by
  rw [insertA, lookupA_cons, if_neg (fun hh : k2 = k => h (hh ▸ rfl))]
  exact lookupA_eraseA_ne m h

theorem mem_insertA {κ β : Type} [DecidableEq κ] {q : κ × β} {k : κ} {v : β} {m : List (κ × β)} :
    q ∈ insertA k v m ↔ q = (k, v) ∨ (q ∈ m ∧ q.1 ≠ k) := by
  simp [insertA, mem_eraseA]

theorem keysA_sublist_of_sublist {κ β : Type} {m1 m2 : List (κ × β)}
    (h : m1.Sublist m2) : (keysA m1).Sublist (keysA m2) :=
  List.Sublist.map _ h

theorem nodup_keysA_insertA {κ β : Type} [DecidableEq κ] {k : κ} {v : β} {m : List (κ × β)}
    (h : (keysA m).Nodup) : (keysA (insertA k v m)).Nodup := by
  simp only [insertA, keysA, List.map_cons]
  refine List.nodup_cons.mpr ⟨?_, ?_⟩
  · exact keysA_notMem_eraseA k m
  · exact List.Nodup.sublist (keysA_sublist_of_sublist (eraseA_sublist k m)) h

theorem lookupA_of_mem_nodup {κ β : Type} [DecidableEq κ] {k : κ} {v : β} {m : List (κ × β)}
    (hnd : (keysA m).Nodup) (hmem : (k, v) ∈ m) : lookupA k m = some v := by
  induction m with
  | nil => cases hmem
  | cons p rest ih =>
      obtain ⟨k2, v2⟩ := p
      simp only [keysA, List.map_cons, List.nodup_cons] at hnd
      rcases List.mem_cons.mp hmem with heq | htail
      · simp only [Prod.mk.injEq] at heq
        obtain ⟨rfl, rfl⟩ := heq
        simp [lookupA_cons]
      · have hne : k2 ≠ k := by
          rintro rfl
          exact hnd.1 (mem_keysA.mpr ⟨v, htail⟩)
        rw [lookupA_cons, if_neg hne]
        exact ih hnd.2 htail

theorem findAddr_cons (q : String × Addr × PlayerData) (rest : List (String × Addr × PlayerData))
    (a : Addr) :
    ((q :: rest).find? (fun p => decide (p.2.1 = a))) =
      if q.2.1 = a then some q else rest.find? (fun p => decide (p.2.1 = a)) := by
  by_cases h : q.2.1 = a
  · rw [List.find?_cons_of_pos _ (by simp [h]), if_pos h]
  · rw [List.find?_cons_of_neg _ (by simp [h]), if_neg h]

theorem find?_addr_of_nodup {pid : String} {a : Addr} {d : PlayerData}
    {m : List (String × Addr × PlayerData)}
    (hnd : (m.map (fun p => p.2.1)).Nodup) (hmem : (pid, (a, d)) ∈ m) :
    m.find? (fun p => decide (p.2.1 = a)) = some (pid, (a, d)) := by
  induction m with
  | nil => cases hmem
  | cons p rest ih =>
      obtain ⟨k2, a2, d2⟩ := p
      simp only [List.map_cons, List.nodup_cons] at hnd
      rcases List.mem_cons.mp hmem with heq | htail
      · simp only [Prod.mk.injEq] at heq
        obtain ⟨rfl, rfl, rfl⟩ := heq
        rw [findAddr_cons, if_pos rfl]
      · have hne : a2 ≠ a := by
          rintro rfl
          exact hnd.1 (List.mem_map.mpr ⟨(pid, a2, d), htail, rfl⟩)
        rw [findAddr_cons, if_neg hne]
        exact ih hnd.2 htail

theorem lookupA_eraseA_self {κ β : Type} [DecidableEq κ] (k : κ) (m : List (κ × β)) :
    lookupA k (eraseA k m) = none := by
  cases h : lookupA k (eraseA k m) with
  | none => rfl
  | some v =>
      rcases mem_eraseA.mp (lookupA_mem h) with ⟨_, hne⟩
      exact absurd rfl hne

theorem foldl_unregister_players (l : List String) (r : RoomData) :
    (l.foldl Room.unregister_publisher r).players = r.players := by
  induction l generalizing r with
  | nil => rfl
  | cons a t ih =>
      simp only [List.foldl_cons]
      exact (ih (Room.unregister_publisher r a)).trans rfl

theorem foldl_unregister_id (l : List String) (r : RoomData) :
    (l.foldl Room.unregister_publisher r).id = r.id := by
  induction l generalizing r with
  | nil => rfl
  | cons a t ih =>
      simp only [List.foldl_cons]
      exact (ih (Room.unregister_publisher r a)).trans rfl

theorem mem_foldl_unregister {q : String × String} (l : List String) (r : RoomData) :
    q ∈ (l.foldl Room.unregister_publisher r).publishers ↔
      q ∈ r.publishers ∧ q.1 ∉ l := by
  induction l generalizing r with
  | nil => simp
  | cons a t ih =>
      simp only [List.foldl_cons]
      rw [ih (Room.unregister_publisher r a)]
      constructor
      · rintro ⟨hmem, hnt⟩
        rcases mem_eraseA.mp hmem with ⟨hm, hne⟩
        exact ⟨hm, by simp [hne, hnt]⟩
      · rintro ⟨hm, hns⟩
        simp only [List.mem_cons, not_or] at hns
        exact ⟨mem_eraseA.mpr ⟨hm, hns.1⟩, hns.2⟩

theorem get_peers_eq (r : RoomData) (pid : String) :
    Room.get_peers r pid = (eraseA pid r.players).map (fun p => p.2.1) := rfl

/-- C2: the activity classifier is total and deterministic, lands in the
closed seven-entry table, follows the declared keyword priority order
(case-insensitive substring match), and maps Playing guitar to
music-lounge, Judging to cinema and napping to hangout-hub. -/
theorem activity_router_total_deterministic :
    activity_to_room "Playing guitar" = ("music-lounge", "Music Lounge") ∧
    activity_to_room "Judging" = ("cinema", "Cinema") ∧
    activity_to_room "napping" = ("hangout-hub", "Hangout Hub") ∧
    (∀ a, activity_to_room a ∈ roomTable) ∧
    (∀ a b, a = b → activity_to_room a = activity_to_room b) ∧
    (∀ a, strContains (strToLower a) "music" = true →
      activity_to_room a = ("music-lounge", "Music Lounge")) ∧
    (∀ a, strContains (strToLower a) "art" = true →
      strContains (strToLower a) "music" = false →
      strContains (strToLower a) "guitar" = false →
      strContains (strToLower a) "piano" = false →
      activity_to_room a = ("art-studio", "Art Studio")) ∧
    (∀ a, strContains (strToLower a) "judge" = true →
      strContains (strToLower a) "music" = false →
      strContains (strToLower a) "guitar" = false →
      strContains (strToLower a) "piano" = false →
      strContains (strToLower a) "art" = false →
      strContains (strToLower a) "draw" = false →
      strContains (strToLower a) "paint" = false →
      strContains (strToLower a) "code" = false →
      strContains (strToLower a) "program" = false →
      strContains (strToLower a) "study" = false →
      strContains (strToLower a) "game" = false →
      strContains (strToLower a) "gaming" = false →
      activity_to_room a = ("cinema", "Cinema")) ∧
    (∀ a, (∀ kw ∈ ["music", "guitar", "piano", "art", "draw", "paint", "code", "program",
        "study", "game", "gaming", "watching", "movie", "judge", "judging", "party",
        "city", "walking"], strContains (strToLower a) kw = false) →
      activity_to_room a = ("hangout-hub", "Hangout Hub")) := by
  refine ⟨by decide, by decide, by decide, ?_, ?_, ?_, ?_, ?_, ?_⟩
  · intro a
    unfold activity_to_room
    dsimp only
    repeat' split
    all_goals simp [roomTable]
  · intro a b h
    rw [h]
  · intro a h
    simp [activity_to_room, h]
  · intro a h hm hg hp
    simp [activity_to_room, h, hm, hg, hp]
  · intro a h hm hg hp ha hd hpa hc hpr hs hga hgg
    simp [activity_to_room, h, hm, hg, hp, ha, hd, hpa, hc, hpr, hs, hga, hgg]
  · intro a h
    have h1 := h "music" (by simp)
    have h2 := h "guitar" (by simp)
    have h3 := h "piano" (by simp)
    have h4 := h "art" (by simp)
    have h5 := h "draw" (by simp)
    have h6 := h "paint" (by simp)
    have h7 := h "code" (by simp)
    have h8 := h "program" (by simp)
    have h9 := h "study" (by simp)
    have h10 := h "game" (by simp)
    have h11 := h "gaming" (by simp)
    have h12 := h "watching" (by simp)
    have h13 := h "movie" (by simp)
    have h14 := h "judge" (by simp)
    have h15 := h "judging" (by simp)
    have h16 := h "party" (by simp)
    have h17 := h "city" (by simp)
    have h18 := h "walking" (by simp)
    simp [activity_to_room, h1, h2, h3, h4, h5, h6, h7, h8, h9, h10, h11, h12, h13,
      h14, h15, h16, h17, h18]

/-- Witness for C2 at a concrete input with the music keyword. -/
theorem activity_router_total_deterministic_witness :
    activity_to_room "jamming music" = ("music-lounge", "Music Lounge") :=
  activity_router_total_deterministic.2.2.2.2.2.1 "jamming music" (by decide)

/-- C3: when a Room with the requested id already exists, the resolution
path of websocket_handler returns that very Room, player map included,
and leaves the registry unchanged. -/
theorem registry_create_or_get_idempotent (owner : OwnerData) (room_id theme : String)
    (room : RoomData) (h : RoomOwner.find_by_id owner room_id = some room) :
    websocket_resolve_room owner room_id theme = (room, owner) := by
  simp [websocket_resolve_room, h]

/-- Witness for C3 on a registry already holding the focus-den room. -/
theorem registry_create_or_get_idempotent_witness :
    websocket_resolve_room ⟨[("focus-den", Room.new "focus-den" "Focus Den")]⟩
        "focus-den" "Focus Den" =
      (Room.new "focus-den" "Focus Den", ⟨[("focus-den", Room.new "focus-den" "Focus Den")]⟩) :=
  registry_create_or_get_idempotent _ _ _ _ rfl

/-- C7: add_player stores the prototype under the freshly minted id with
position at the origin, rotation zero and is_moving false regardless of
the client-provided values, while name, color, activity and facial
features are preserved unchanged. -/
theorem add_player_zeroes_transient_state (room : RoomData) (freshId : String) (addr : Addr)
    (proto : PlayerData) :
    (Room.add_player room freshId addr proto).1 = freshId ∧
    lookupA freshId (Room.add_player room freshId addr proto).2.players =
      some (addr, { proto with
                    id := freshId, position := Position.origin,
                    rotation := 0.0, is_moving := false }) := by
  refine ⟨rfl, ?_⟩
  simp only [Room.add_player]
  exact lookupA_insertA_self _ _ _

/-- C10: updating the position of a player id absent from the player map
leaves the room, the player map and the publisher index entirely
unchanged. -/
theorem update_player_position_absent_noop (room : RoomData) (pid : String) (pos : Position)
    (rot : Float) (mv : Bool) (h : pid ∉ keysA room.players) :
    Room.update_player_position room pid pos rot mv = room := by
  have key : ∀ (l : List (String × Addr × PlayerData)), pid ∉ keysA l →
      l.map (updEntry pid pos rot mv) = l := by
    intro l hl
    induction l with
    | nil => rfl
    | cons p rest ih =>
        simp only [keysA, List.map_cons, List.mem_cons, not_or] at hl
        have h1 : p.1 ≠ pid := fun hh => hl.1 hh.symm
        rw [List.map_cons]
        have hp : updEntry pid pos rot mv p = p := by
          simp only [updEntry, if_neg h1]
        rw [hp, ih (by simpa [keysA] using hl.2)]
  show { room with players := room.players.map (updEntry pid pos rot mv) } = room
  rw [key room.players h]

/-- Witness for C10 on a one-player room and a missing player id. -/
theorem update_player_position_absent_noop_witness :
    Room.update_player_position sampleRoom "p2" ⟨1.0, 2.0, 3.0⟩ 0.5 true = sampleRoom :=
  update_player_position_absent_noop _ _ _ _ _ (by simp [keysA, sampleRoom])

/-- C1: on registration the joining client receives RoomState as the very
first outbound frame, carrying its fresh player id, the player list of the
updated room including itself, the room theme and the serializable ICE
server list; the PlayerJoined frames that follow go exactly to the peers
and are computed from the room after the joining player was inserted. -/
theorem joined_client_receives_room_state_first (room : RoomData) (selfAddr : Addr)
    (freshId : String) (proto : PlayerData) (ice : List IceServerConfig)
    (hfresh : freshId ∉ keysA room.players)
    (haddr : selfAddr ∉ Room.get_all_addrs room) :
    let res := StreamingSession.started room selfAddr freshId proto ice
    let minted : PlayerData := { proto with
      id := freshId, position := Position.origin, rotation := 0.0, is_moving := false }
    res.2.1 = freshId ∧
    lookupA freshId res.1.players = some (selfAddr, minted) ∧
    res.2.2 = (selfAddr, Frame.roomState freshId (Room.get_all_players res.1) room.theme ice)
        :: (Room.get_peers res.1 freshId).map (fun a => (a, Frame.playerJoined minted)) ∧
    minted ∈ Room.get_all_players res.1 ∧
    Room.get_peers res.1 freshId = Room.get_all_addrs room ∧
    selfAddr ∉ Room.get_peers res.1 freshId := by
  intro res minted
  have herase : eraseA freshId room.players = room.players := eraseA_eq_self hfresh
  have hplayers : res.1.players = (freshId, (selfAddr, minted)) :: room.players := by
    show (insertA freshId (selfAddr, minted) room.players) = _
    rw [insertA, herase]
  have hlook : lookupA freshId res.1.players = some (selfAddr, minted) := by
    rw [hplayers, lookupA_cons, if_pos rfl]
  have hpeers : Room.get_peers res.1 freshId = Room.get_all_addrs room := by
    rw [get_peers_eq, hplayers, eraseA_cons, if_pos rfl, herase]
    rfl
  refine ⟨rfl, hlook, ?_, ?_, hpeers, hpeers ▸ haddr⟩
  · show (selfAddr,
        Frame.roomState freshId (Room.get_all_players res.1) res.1.theme ice) ::
        (match Room.get_player_data res.1 freshId with
          | some npd => (Room.get_peers res.1 freshId).map (fun a => (a, Frame.playerJoined npd))
          | none => []) = _
    have hdata : Room.get_player_data res.1 freshId = some minted := by
      rw [Room.get_player_data, hlook]
      rfl
    rw [hdata]
    have hth : res.1.theme = room.theme := rfl
    rw [hth]
  · rw [Room.get_all_players, hplayers, List.map_cons]
    exact List.mem_cons_self _ _

/-- Witness for C1: a fresh player joining the sample one-player room. -/
theorem joined_client_receives_room_state_first_witness :
    let res := StreamingSession.started sampleRoom 9 "p2" samplePlayer []
    let minted : PlayerData := { samplePlayer with
      id := "p2", position := Position.origin, rotation := 0.0, is_moving := false }
    res.2.1 = "p2" ∧
    lookupA "p2" res.1.players = some (9, minted) ∧
    res.2.2 = (9, Frame.roomState "p2" (Room.get_all_players res.1) sampleRoom.theme [])
        :: (Room.get_peers res.1 "p2").map (fun a => (a, Frame.playerJoined minted)) ∧
    minted ∈ Room.get_all_players res.1 ∧
    Room.get_peers res.1 "p2" = Room.get_all_addrs sampleRoom ∧
    (9 : Addr) ∉ Room.get_peers res.1 "p2" :=
  joined_client_receives_room_state_first sampleRoom 9 "p2" samplePlayer []
    (by simp [keysA, sampleRoom]) (by simp [Room.get_all_addrs, sampleRoom])

/-- C9: on session close the departing player is removed from the room by
its address, playerLeft is broadcast to every peer, and the registry
removes the room entry exactly when the remaining player count is zero. -/
theorem session_close_removes_player_and_empty_room (room : RoomData) (owner : OwnerData)
    (selfAddr : Addr) (pid : String) (ownedPubs : List String) (d : PlayerData)
    (hmem : (pid, (selfAddr, d)) ∈ room.players)
    (hnd : (Room.get_all_addrs room).Nodup) :
    let res := StreamingSession.stopped room owner selfAddr pid ownedPubs
    (∀ a ∈ Room.get_peers room pid, (a, Frame.playerLeft pid) ∈ res.2.2) ∧
    res.1.players = eraseA pid room.players ∧
    (eraseA pid room.players = [] → lookupA room.id (res.2.1).rooms = none) ∧
    (eraseA pid room.players ≠ [] → res.2.1 = owner) := by
  intro res
  have hfind : (ownedPubs.foldl Room.unregister_publisher room).players.find?
      (fun p => decide (p.2.1 = selfAddr)) = some (pid, (selfAddr, d)) := by
    rw [foldl_unregister_players]
    exact find?_addr_of_nodup (by simpa [Room.get_all_addrs] using hnd) hmem
  have herase : eraseA pid (ownedPubs.foldl Room.unregister_publisher room).players =
      eraseA pid room.players := by
    rw [foldl_unregister_players]
  have hres : res = (if (eraseA pid room.players).length = 0 then
      ({ ownedPubs.foldl Room.unregister_publisher room with
          players := eraseA pid room.players },
        RoomOwner.remove_room owner (ownedPubs.foldl Room.unregister_publisher room).id,
        (ownedPubs.map (fun p => (Room.get_peers room pid).map
          (fun a => (a, Frame.unpublished p)))).flatten ++
          (Room.get_peers room pid).map (fun a => (a, Frame.playerLeft pid)))
    else
      ({ ownedPubs.foldl Room.unregister_publisher room with
          players := eraseA pid room.players }, owner,
        (ownedPubs.map (fun p => (Room.get_peers room pid).map
          (fun a => (a, Frame.unpublished p)))).flatten ++
          (Room.get_peers room pid).map (fun a => (a, Frame.playerLeft pid)))) := by
    show StreamingSession.stopped room owner selfAddr pid ownedPubs = _
    rw [StreamingSession.stopped]
    simp only [Room.remove_player_by_addr, hfind, herase]
  constructor
  · intro a ha
    rw [hres]
    by_cases hlen : (eraseA pid room.players).length = 0
    · rw [if_pos hlen]
      exact List.mem_append_right _ (List.mem_map.mpr ⟨a, ha, rfl⟩)
    · rw [if_neg hlen]
      exact List.mem_append_right _ (List.mem_map.mpr ⟨a, ha, rfl⟩)
  refine ⟨?_, ?_, ?_⟩
  · rw [hres]
    by_cases hlen : (eraseA pid room.players).length = 0
    · rw [if_pos hlen]
    · rw [if_neg hlen]
  · intro hnil
    have hlen : (eraseA pid room.players).length = 0 := by simp [hnil]
    rw [hres, if_pos hlen]
    show lookupA room.id (RoomOwner.remove_room owner _).rooms = none
    rw [foldl_unregister_id]
    exact lookupA_eraseA_self room.id owner.rooms
  · intro hne
    have hlen : ¬(eraseA pid room.players).length = 0 := by
      simp [List.length_eq_zero, hne]
    rw [hres, if_neg hlen]

/-- Witness for C9: the sole occupant of the sample room disconnects and
the registry entry disappears. -/
theorem session_close_removes_player_and_empty_room_witness :
    let res := StreamingSession.stopped sampleRoom
      ⟨[("focus-den", sampleRoom)]⟩ 7 "p1" []
    (∀ a ∈ Room.get_peers sampleRoom "p1", (a, Frame.playerLeft "p1") ∈ res.2.2) ∧
    res.1.players = eraseA "p1" sampleRoom.players ∧
    (eraseA "p1" sampleRoom.players = [] →
      lookupA sampleRoom.id (res.2.1).rooms = none) ∧
    (eraseA "p1" sampleRoom.players ≠ [] → res.2.1 = ⟨[("focus-den", sampleRoom)]⟩) :=
  session_close_removes_player_and_empty_room sampleRoom ⟨[("focus-den", sampleRoom)]⟩
    7 "p1" [] (sampleMinted "p1") (by simp [sampleRoom]) (by simp [Room.get_all_addrs, sampleRoom])

theorem lookupA_map_updEntry_self (pid : String) (pos : Position) (rot : Float) (mv : Bool)
    (m : List (String × Addr × PlayerData)) :
    lookupA pid (m.map (updEntry pid pos rot mv)) =
      (lookupA pid m).map (fun e =>
        (e.1, { e.2 with position := pos, rotation := rot, is_moving := mv })) := by
  induction m with
  | nil => rfl
  | cons p rest ih =>
      obtain ⟨k2, a2, d2⟩ := p
      by_cases h : k2 = pid
      · subst h
        simp [updEntry, lookupA_cons]
      · simp [updEntry, h, lookupA_cons, ih]

theorem lookupA_map_updEntry_ne {k pid : String} (h : k ≠ pid) (pos : Position) (rot : Float)
    (mv : Bool) (m : List (String × Addr × PlayerData)) :
    lookupA k (m.map (updEntry pid pos rot mv)) = lookupA k m := by
  induction m with
  | nil => rfl
  | cons p rest ih =>
      obtain ⟨k2, a2, d2⟩ := p
      by_cases h2 : k2 = pid
      · subst h2
        have hne : k2 ≠ k := fun hh => h (hh ▸ rfl)
        simp [updEntry, lookupA_cons, hne, ih]
      · by_cases h3 : k2 = k
        · subst h3
          simp [updEntry, h2, lookupA_cons]
        · simp [updEntry, h2, h3, lookupA_cons, ih]

theorem get_peers_update (r : RoomData) (pid k : String) (pos : Position) (rot : Float)
    (mv : Bool) :
    Room.get_peers (Room.update_player_position r pid pos rot mv) k = Room.get_peers r k := by
  have key : ∀ (m : List (String × Addr × PlayerData)),
      ((m.map (updEntry pid pos rot mv)).filter (fun p => decide (p.1 ≠ k))).map
          (fun p => p.2.1) =
        (m.filter (fun p => decide (p.1 ≠ k))).map (fun p => p.2.1) := by
    intro m
    induction m with
    | nil => rfl
    | cons p rest ih =>
        obtain ⟨k2, a2, d2⟩ := p
        simp only [decide_not] at ih
        by_cases h2 : k2 = pid
        · subst h2
          by_cases h3 : k2 = k
          · subst h3
            simp [updEntry, ih]
          · simp [updEntry, h3, ih]
        · by_cases h3 : k2 = k
          · subst h3
            simp [updEntry, h2, ih]
          · simp [updEntry, h2, h3, ih]
  exact key r.players

/-- C8: a chat message is broadcast, tagged with the display name of the
sender, to every member of the room including the sender; playerMoved and
playerAnimation broadcasts go to every member except the sender; and a
player move overwrites exactly the position, rotation and is_moving
fields of the sender in the room. -/
theorem chat_everyone_move_animation_peers (room : RoomData) (selfAddr : Addr)
    (pid sender msg anim : String) (d : PlayerData) (pos : Position) (rot : Float) (mv : Bool)
    (hmem : lookupA pid room.players = some (selfAddr, d))
    (hnd : (Room.get_all_addrs room).Nodup) :
    ((selfAddr, Frame.chatMessage sender msg) ∈ handleChatMessage room sender msg) ∧
    (∀ q ∈ room.players, (q.2.1, Frame.chatMessage sender msg) ∈ handleChatMessage room sender msg) ∧
    (∀ e ∈ (handlePlayerMove room pid pos rot mv).2, e.1 ≠ selfAddr) ∧
    (∀ q ∈ room.players, q.1 ≠ pid →
      (q.2.1, Frame.playerMoved pid pos rot mv) ∈ (handlePlayerMove room pid pos rot mv).2) ∧
    lookupA pid (handlePlayerMove room pid pos rot mv).1.players =
      some (selfAddr, { d with position := pos, rotation := rot, is_moving := mv }) ∧
    (∀ k, k ≠ pid → lookupA k (handlePlayerMove room pid pos rot mv).1.players =
      lookupA k room.players) ∧
    (handlePlayerMove room pid pos rot mv).1.publishers = room.publishers ∧
    (∀ e ∈ handlePlayAnimation room pid anim, e.1 ≠ selfAddr) ∧
    (∀ q ∈ room.players, q.1 ≠ pid →
      (q.2.1, Frame.playerAnimation pid anim) ∈ handlePlayAnimation room pid anim) := by
  have hself : (pid, (selfAddr, d)) ∈ room.players := lookupA_mem hmem
  have haddrs : ∀ q ∈ eraseA pid room.players, q.2.1 ≠ selfAddr := by
    intro q hq heq
    rcases mem_eraseA.mp hq with ⟨hqm, hqne⟩
    have hinj := List.inj_on_of_nodup_map (f := fun p => p.2.1)
      (l := room.players) (by simpa [Room.get_all_addrs] using hnd)
    have := hinj hqm hself (by simpa using heq)
    exact hqne (by rw [this])
  have hpeers : Room.get_peers (handlePlayerMove room pid pos rot mv).1 pid =
      Room.get_peers room pid := get_peers_update room pid pid pos rot mv
  refine ⟨?_, ?_, ?_, ?_, ?_, ?_, rfl, ?_, ?_⟩
  · exact List.mem_map.mpr ⟨selfAddr,
      List.mem_map.mpr ⟨(pid, (selfAddr, d)), hself, rfl⟩, rfl⟩
  · intro q hq
    exact List.mem_map.mpr ⟨q.2.1, List.mem_map.mpr ⟨q, hq, rfl⟩, rfl⟩
  · intro e he heq
    have : e.1 ∈ Room.get_peers (handlePlayerMove room pid pos rot mv).1 pid := by
      rcases List.mem_map.mp he with ⟨a, ha, rfl⟩
      exact ha
    rw [hpeers, get_peers_eq] at this
    rcases List.mem_map.mp this with ⟨q, hq, hqe⟩
    exact haddrs q hq (hqe.trans heq)
  · intro q hq hqp
    have : q.2.1 ∈ Room.get_peers room pid := by
      rw [get_peers_eq]
      exact List.mem_map.mpr ⟨q, mem_eraseA.mpr ⟨hq, hqp⟩, rfl⟩
    rw [← hpeers] at this
    exact List.mem_map.mpr ⟨q.2.1, this, rfl⟩
  · show lookupA pid (room.players.map (updEntry pid pos rot mv)) = _
    rw [lookupA_map_updEntry_self, hmem]
    rfl
  · intro k hk
    show lookupA k (room.players.map (updEntry pid pos rot mv)) = _
    exact lookupA_map_updEntry_ne hk pos rot mv room.players
  · intro e he heq
    have : e.1 ∈ Room.get_peers room pid := by
      rcases List.mem_map.mp he with ⟨a, ha, rfl⟩
      exact ha
    rw [get_peers_eq] at this
    rcases List.mem_map.mp this with ⟨q, hq, hqe⟩
    exact haddrs q hq (hqe.trans heq)
  · intro q hq hqp
    refine List.mem_map.mpr ⟨q.2.1, ?_, rfl⟩
    rw [get_peers_eq]
    exact List.mem_map.mpr ⟨q, mem_eraseA.mpr ⟨hq, hqp⟩, rfl⟩

/-- Witness for C8 on the sample one-player room. -/
theorem chat_everyone_move_animation_peers_witness :
    ((7, Frame.chatMessage "C1" "hi") ∈ handleChatMessage sampleRoom "C1" "hi") ∧
    (∀ q ∈ sampleRoom.players,
      (q.2.1, Frame.chatMessage "C1" "hi") ∈ handleChatMessage sampleRoom "C1" "hi") ∧
    (∀ e ∈ (handlePlayerMove sampleRoom "p1" ⟨1.0, 2.0, 3.0⟩ 0.5 true).2, e.1 ≠ 7) ∧
    (∀ q ∈ sampleRoom.players, q.1 ≠ "p1" →
      (q.2.1, Frame.playerMoved "p1" ⟨1.0, 2.0, 3.0⟩ 0.5 true) ∈
        (handlePlayerMove sampleRoom "p1" ⟨1.0, 2.0, 3.0⟩ 0.5 true).2) ∧
    lookupA "p1" (handlePlayerMove sampleRoom "p1" ⟨1.0, 2.0, 3.0⟩ 0.5 true).1.players =
      some (7, { sampleMinted "p1" with
                 position := ⟨1.0, 2.0, 3.0⟩, rotation := 0.5, is_moving := true }) ∧
    (∀ k, k ≠ "p1" →
      lookupA k (handlePlayerMove sampleRoom "p1" ⟨1.0, 2.0, 3.0⟩ 0.5 true).1.players =
        lookupA k sampleRoom.players) ∧
    (handlePlayerMove sampleRoom "p1" ⟨1.0, 2.0, 3.0⟩ 0.5 true).1.publishers =
      sampleRoom.publishers ∧
    (∀ e ∈ handlePlayAnimation sampleRoom "p1" "wave", e.1 ≠ 7) ∧
    (∀ q ∈ sampleRoom.players, q.1 ≠ "p1" →
      (q.2.1, Frame.playerAnimation "p1" "wave") ∈ handlePlayAnimation sampleRoom "p1" "wave") :=
  chat_everyone_move_animation_peers sampleRoom 7 "p1" "C1" "hi" "wave"
    (sampleMinted "p1") ⟨1.0, 2.0, 3.0⟩ 0.5 true rfl
    (by simp [Room.get_all_addrs, sampleRoom])

theorem subscribeLoop_tried_le (oracle : Nat → Except String (String × String))
    (pub_id : String) :
    ∀ (r a : Nat) (lastErr : String), (subscribeLoop oracle pub_id r a lastErr).tried ≤ r := by
  intro r
  induction r with
  | zero => intro a lastErr; simp [subscribeLoop]
  | succ n ih =>
      intro a lastErr
      cases h : oracle a with
      | ok v =>
          obtain ⟨subId, offerSdp⟩ := v
          simp [subscribeLoop, h]
      | error e =>
          simp only [subscribeLoop, h]
          show 1 + (subscribeLoop oracle pub_id n (a + 1) e).tried ≤ n + 1
          have h2 := ih (a + 1) e
          omega

theorem subscribeLoop_all_fail (oracle : Nat → Except String (String × String))
    (pub_id : String) (err : Nat → String) :
    ∀ (r a : Nat) (lastErr : String),
      (∀ i, a ≤ i → i < a + r → oracle i = Except.error (err i)) →
      subscribeLoop oracle pub_id r a lastErr =
        { delays := (List.range' a r).map delayBefore, tried := r,
          frames := [Frame.subscribeFailed pub_id (if r = 0 then lastErr else err (a + r - 1))],
          stored := none } := by
  intro r
  induction r with
  | zero =>
      intro a lastErr h
      simp [subscribeLoop, List.range']
  | succ n ih =>
      intro a lastErr h
      have ha : oracle a = Except.error (err a) := h a le_rfl (by omega)
      simp only [subscribeLoop, ha]
      rw [ih (a + 1) (err a) (fun i h1 h2 => h i (by omega) (by omega))]
      have hidx : (if n = 0 then err a else err (a + 1 + n - 1)) = err (a + (n + 1) - 1) := by
        cases n with
        | zero => simp
        | succ m =>
            simp only [if_neg (Nat.succ_ne_zero m)]
            congr 1
            omega
      have hdel : (List.range' a (n + 1)).map delayBefore =
          delayBefore a :: (List.range' (a + 1) n).map delayBefore := by
        rw [List.range'_succ]
        rfl
      have htried : 1 + n = n + 1 := Nat.add_comm 1 n
      rw [hidx, hdel, htried]
      simp

theorem subscribeLoop_first_success (oracle : Nat → Except String (String × String))
    (pub_id : String) (err : Nat → String) (subId sdp : String) :
    ∀ (r a k : Nat) (lastErr : String), a ≤ k → k < a + r →
      (∀ i, a ≤ i → i < k → oracle i = Except.error (err i)) →
      oracle k = Except.ok (subId, sdp) →
      subscribeLoop oracle pub_id r a lastErr =
        { delays := (List.range' a (k - a + 1)).map delayBefore, tried := k - a + 1,
          frames := [Frame.offer sdp, Frame.subscribed subId], stored := some subId } := by
  intro r
  induction r with
  | zero =>
      intro a k lastErr h1 h2 h3 h4
      exact absurd h2 (by omega)
  | succ n ih =>
      intro a k lastErr h1 h2 h3 h4
      by_cases hak : k = a
      · subst hak
        simp only [subscribeLoop, h4]
        have hd : (List.range' k (k - k + 1)).map delayBefore = [delayBefore k] := by
          simp [List.range']
        rw [hd]
        simp
      · have hlt : a < k := lt_of_le_of_ne h1 (Ne.symm hak)
        have ha : oracle a = Except.error (err a) := h3 a le_rfl hlt
        simp only [subscribeLoop, ha]
        rw [ih (a + 1) k (err a) (by omega) (by omega)
          (fun i hi1 hi2 => h3 i (by omega) hi2) h4]
        have hcnt : k - a + 1 = (k - (a + 1) + 1) + 1 := by omega
        have hdel : (List.range' a (k - a + 1)).map delayBefore =
            delayBefore a :: (List.range' (a + 1) (k - (a + 1) + 1)).map delayBefore := by
          rw [hcnt, List.range'_succ]
          rfl
        have htried : 1 + (k - (a + 1) + 1) = k - a + 1 := by omega
        rw [hdel, htried]

/-- C5: for every subscribe request the session makes at most five SFU
attempts with delays 0, 100, 200, 400, 800 ms before attempts one to
five; the first success stores the subscriber, sends offer then
subscribed, and stops retrying; five failures produce exactly one
subscribeFailed frame carrying the last error and no subscribed frame. -/
theorem subscribe_bounded_retry (oracle : Nat → Except String (String × String))
    (pub_id : String) (err : Nat → String) (subId sdp : String) :
    (handleSubscribe oracle pub_id).tried ≤ 5 ∧
    ((∀ i, i < 5 → oracle i = Except.error (err i)) →
      handleSubscribe oracle pub_id =
        { delays := [0, 100, 200, 400, 800], tried := 5,
          frames := [Frame.subscribeFailed pub_id (err 4)], stored := none }) ∧
    (∀ k, k < 5 → (∀ i, i < k → oracle i = Except.error (err i)) →
      oracle k = Except.ok (subId, sdp) →
      handleSubscribe oracle pub_id =
        { delays := (List.range (k + 1)).map delayBefore, tried := k + 1,
          frames := [Frame.offer sdp, Frame.subscribed subId], stored := some subId }) := by
  refine ⟨subscribeLoop_tried_le oracle pub_id 5 0 "", ?_, ?_⟩
  · intro h
    rw [handleSubscribe,
      subscribeLoop_all_fail oracle pub_id err 5 0 "" (fun i h1 h2 => h i (by omega))]
    have hd : (List.range' 0 5).map delayBefore = [0, 100, 200, 400, 800] := by decide
    rw [hd]
    simp
  · intro k hk hfails hok
    rw [handleSubscribe,
      subscribeLoop_first_success oracle pub_id err subId sdp 5 0 k "" (Nat.zero_le k)
        (by omega) (fun i h1 h2 => hfails i h2) hok]
    have h0 : k - 0 + 1 = k + 1 := by omega
    rw [h0, ← List.range_eq_range']

/-- Witness for C5 with an SFU stub that always fails. -/
theorem subscribe_bounded_retry_witness :
    handleSubscribe (fun _ => Except.error "boom") "pubX" =
      { delays := [0, 100, 200, 400, 800], tried := 5,
        frames := [Frame.subscribeFailed "pubX" "boom"], stored := none } :=
  (subscribe_bounded_retry (fun _ => Except.error "boom") "pubX" (fun _ => "boom")
    "" "").2.1 (fun _ _ => rfl)

/-- C6: a successful publish stored under a fresh track id followed by a
stopPublish with that id closes the stored publisher handle, removes it
from the session map, unregisters the binding from the room, broadcasts
unpublished to the peers, and restores both the session map and the room
publisher index to their prior state. -/
theorem publish_then_stop_restores_state (room : RoomData) (pid : String)
    (sessPubs : List (String × Nat)) (track : String) (handle : Nat)
    (hs : track ∉ keysA sessPubs) (hr : track ∉ keysA room.publishers) :
    (handlePublishOk room pid sessPubs track handle).2.2 =
      (Room.get_peers room pid).map (fun a => (a, Frame.published [track] pid)) ∧
    handleStopPublish (handlePublishOk room pid sessPubs track handle).1 pid
        (handlePublishOk room pid sessPubs track handle).2.1 track =
      (room, sessPubs, [handle],
        (Room.get_peers room pid).map (fun a => (a, Frame.unpublished track))) := by
  have hpub : eraseA track (insertA track pid room.publishers) = room.publishers := by
    rw [insertA, eraseA_cons, if_pos rfl,
      eraseA_eq_self (keysA_notMem_eraseA track room.publishers), eraseA_eq_self hr]
  have hsess : eraseA track (insertA track handle sessPubs) = sessPubs := by
    rw [insertA, eraseA_cons, if_pos rfl,
      eraseA_eq_self (keysA_notMem_eraseA track sessPubs), eraseA_eq_self hs]
  refine ⟨rfl, ?_⟩
  show handleStopPublish (Room.register_publisher room track pid) pid
      (insertA track handle sessPubs) track = _
  have hroom : Room.unregister_publisher (Room.register_publisher room track pid) track =
      room := by
    simp only [Room.unregister_publisher, Room.register_publisher]
    rw [hpub]
  simp only [handleStopPublish, lookupA_insertA_self, hroom, hsess]

/-- Witness for C6 in the sample room with an empty session map. -/
theorem publish_then_stop_restores_state_witness :
    (handlePublishOk sampleRoom "p1" [] "t1" 42).2.2 =
      (Room.get_peers sampleRoom "p1").map (fun a => (a, Frame.published ["t1"] "p1")) ∧
    handleStopPublish (handlePublishOk sampleRoom "p1" [] "t1" 42).1 "p1"
        (handlePublishOk sampleRoom "p1" [] "t1" 42).2.1 "t1" =
      (sampleRoom, [], [42],
        (Room.get_peers sampleRoom "p1").map (fun a => (a, Frame.unpublished "t1"))) :=
  publish_then_stop_restores_state sampleRoom "p1" [] "t1" 42
    (by simp [keysA]) (by simp [keysA, sampleRoom])

theorem mem_insertK {x k : String} {l : List String} :
    x ∈ insertK k l ↔ x = k ∨ (x ∈ l ∧ x ≠ k) := by
  simp [insertK, List.mem_filter]

theorem mem_eraseK {x k : String} {l : List String} :
    x ∈ eraseK k l ↔ x ∈ l ∧ x ≠ k := by
  simp [eraseK, List.mem_filter]

theorem inv_opJoin (st : SysSt) (addr : Addr) (freshId : String) (proto : PlayerData)
    (hInv : Inv st) (h1 : freshId ∉ keysA st.room.players)
    (h2 : addr ∉ Room.get_all_addrs st.room) (h3 : addr ∉ keysA st.sessions) :
    Inv (opJoin st addr freshId proto) := by
  obtain ⟨hA, hB, hC, hD⟩ := hInv
  have hpl : (opJoin st addr freshId proto).room.players =
      (freshId, (addr, { proto with
        id := freshId, position := Position.origin,
        rotation := 0.0, is_moving := false })) :: st.room.players := by
    show insertA freshId _ st.room.players = _
    rw [insertA, eraseA_eq_self h1]
  have hse : (opJoin st addr freshId proto).sessions =
      (addr, (⟨freshId, []⟩ : SessionSt)) :: st.sessions := by
    show insertA addr _ st.sessions = _
    rw [insertA, eraseA_eq_self h3]
    rfl
  refine ⟨?_, ?_, ?_, ?_⟩
  · intro q hq
    rcases hA q hq with ⟨p, hp, hpid, hown⟩
    exact ⟨p, by rw [hse]; exact List.mem_cons_of_mem _ hp, hpid, hown⟩
  · intro p hp
    rw [hse] at hp
    rcases List.mem_cons.mp hp with rfl | htail
    · refine ⟨(addr, { proto with
        id := freshId, position := Position.origin,
        rotation := 0.0, is_moving := false }), ?_, rfl⟩
      rw [hpl, lookupA_cons, if_pos rfl]
    · rcases hB p htail with ⟨e, he, he1⟩
      refine ⟨e, ?_, he1⟩
      rw [hpl, lookupA_cons, if_neg ?_]
      · exact he
      · intro hcontra
        refine h1 ?_
        rw [hcontra]
        exact mem_keysA.mpr ⟨e, lookupA_mem he⟩
  · have haddrs : Room.get_all_addrs (opJoin st addr freshId proto).room =
        addr :: Room.get_all_addrs st.room := by
      simp only [Room.get_all_addrs, hpl, List.map_cons]
    rw [haddrs]
    exact List.nodup_cons.mpr ⟨h2, hC⟩
  · have hkeys : keysA (opJoin st addr freshId proto).sessions = addr :: keysA st.sessions := by
      simp only [keysA, hse, List.map_cons]
    rw [hkeys]
    exact List.nodup_cons.mpr ⟨h3, hD⟩

theorem inv_opPublish (st : SysSt) (addr : Addr) (track : String) (hInv : Inv st) :
    Inv (opPublish st addr track) := by
  obtain ⟨hA, hB, hC, hD⟩ := hInv
  cases hlook : lookupA addr st.sessions with
  | none => simpa [opPublish, hlook] using ⟨hA, hB, hC, hD⟩
  | some s =>
      have hsmem : (addr, s) ∈ st.sessions := lookupA_mem hlook
      have hpub : (opPublish st addr track).room.publishers =
          insertA track s.player_id st.room.publishers := by
        simp [opPublish, hlook, Room.register_publisher]
      have hpl : (opPublish st addr track).room.players = st.room.players := by
        simp [opPublish, hlook, Room.register_publisher]
      have hse : (opPublish st addr track).sessions =
          insertA addr ⟨s.player_id, insertK track s.ownedPubs⟩ st.sessions := by
        simp [opPublish, hlook]
      refine ⟨?_, ?_, ?_, ?_⟩
      · intro q hq
        rw [hpub] at hq
        rcases mem_insertA.mp hq with rfl | ⟨hqmem, hqne⟩
        · refine ⟨(addr, ⟨s.player_id, insertK track s.ownedPubs⟩), ?_, rfl, ?_⟩
          · rw [hse]
            exact mem_insertA.mpr (Or.inl rfl)
          · exact mem_insertK.mpr (Or.inl rfl)
        · rcases hA q hqmem with ⟨p, hp, hpid, hown⟩
          by_cases hpa : p.1 = addr
          · have hps : p.2 = s := by
              have hl2 : lookupA addr st.sessions = some p.2 := by
                apply lookupA_of_mem_nodup hD
                rw [← hpa]
                simpa using hp
              rw [hlook] at hl2
              injection hl2 with hl3
              exact hl3.symm
            refine ⟨(addr, ⟨s.player_id, insertK track s.ownedPubs⟩), ?_, ?_, ?_⟩
            · rw [hse]
              exact mem_insertA.mpr (Or.inl rfl)
            · show s.player_id = q.2
              rw [← hps]
              exact hpid
            · show q.1 ∈ insertK track s.ownedPubs
              refine mem_insertK.mpr (Or.inr ⟨?_, hqne⟩)
              rw [← hps]
              exact hown
          · exact ⟨p, by rw [hse]; exact mem_insertA.mpr (Or.inr ⟨hp, hpa⟩), hpid, hown⟩
      · intro p hp
        rw [hse] at hp
        rcases mem_insertA.mp hp with rfl | ⟨hmemold, hne⟩
        · rcases hB (addr, s) hsmem with ⟨e, he, he1⟩
          exact ⟨e, by rw [hpl]; exact he, he1⟩
        · rcases hB p hmemold with ⟨e, he, he1⟩
          exact ⟨e, by rw [hpl]; exact he, he1⟩
      · have haddrs : Room.get_all_addrs (opPublish st addr track).room =
            Room.get_all_addrs st.room := by
          simp only [Room.get_all_addrs, hpl]
        rw [haddrs]
        exact hC
      · rw [hse]
        exact nodup_keysA_insertA hD

theorem inv_opStopPublish (st : SysSt) (addr : Addr) (pubId : String) (hInv : Inv st) :
    Inv (opStopPublish st addr pubId) := by
  obtain ⟨hA, hB, hC, hD⟩ := hInv
  cases hlook : lookupA addr st.sessions with
  | none => simpa [opStopPublish, hlook] using ⟨hA, hB, hC, hD⟩
  | some s =>
      by_cases howned : pubId ∈ s.ownedPubs
      · have hsmem : (addr, s) ∈ st.sessions := lookupA_mem hlook
        have hpub : (opStopPublish st addr pubId).room.publishers =
            eraseA pubId st.room.publishers := by
          simp [opStopPublish, hlook, howned, Room.unregister_publisher]
        have hpl : (opStopPublish st addr pubId).room.players = st.room.players := by
          simp [opStopPublish, hlook, howned, Room.unregister_publisher]
        have hse : (opStopPublish st addr pubId).sessions =
            insertA addr ⟨s.player_id, eraseK pubId s.ownedPubs⟩ st.sessions := by
          simp [opStopPublish, hlook, howned]
        refine ⟨?_, ?_, ?_, ?_⟩
        · intro q hq
          rw [hpub] at hq
          rcases mem_eraseA.mp hq with ⟨hqmem, hqne⟩
          rcases hA q hqmem with ⟨p, hp, hpid, hown⟩
          by_cases hpa : p.1 = addr
          · have hps : p.2 = s := by
              have hl2 : lookupA addr st.sessions = some p.2 := by
                apply lookupA_of_mem_nodup hD
                rw [← hpa]
                simpa using hp
              rw [hlook] at hl2
              injection hl2 with hl3
              exact hl3.symm
            refine ⟨(addr, ⟨s.player_id, eraseK pubId s.ownedPubs⟩), ?_, ?_, ?_⟩
            · rw [hse]
              exact mem_insertA.mpr (Or.inl rfl)
            · show s.player_id = q.2
              rw [← hps]
              exact hpid
            · show q.1 ∈ eraseK pubId s.ownedPubs
              refine mem_eraseK.mpr ⟨?_, hqne⟩
              rw [← hps]
              exact hown
          · exact ⟨p, by rw [hse]; exact mem_insertA.mpr (Or.inr ⟨hp, hpa⟩), hpid, hown⟩
        · intro p hp
          rw [hse] at hp
          rcases mem_insertA.mp hp with rfl | ⟨hmemold, hne⟩
          · rcases hB (addr, s) hsmem with ⟨e, he, he1⟩
            exact ⟨e, by rw [hpl]; exact he, he1⟩
          · rcases hB p hmemold with ⟨e, he, he1⟩
            exact ⟨e, by rw [hpl]; exact he, he1⟩
        · have haddrs : Room.get_all_addrs (opStopPublish st addr pubId).room =
              Room.get_all_addrs st.room := by
            simp only [Room.get_all_addrs, hpl]
          rw [haddrs]
          exact hC
        · rw [hse]
          exact nodup_keysA_insertA hD
      · simpa [opStopPublish, hlook, howned] using ⟨hA, hB, hC, hD⟩

theorem inv_opClose (st : SysSt) (addr : Addr) (hInv : Inv st) :
    Inv (opClose st addr) := by
  obtain ⟨hA, hB, hC, hD⟩ := hInv
  cases hlook : lookupA addr st.sessions with
  | none => simpa [opClose, hlook] using ⟨hA, hB, hC, hD⟩
  | some s =>
      have hsmem : (addr, s) ∈ st.sessions := lookupA_mem hlook
      rcases hB (addr, s) hsmem with ⟨e, he, he1⟩
      obtain ⟨ea, ed⟩ := e
      simp only at he1
      subst he1
      have hmem2 : (s.player_id, (ea, ed)) ∈ st.room.players := lookupA_mem he
      have hfind : st.room.players.find? (fun p => decide (p.2.1 = ea)) =
          some (s.player_id, (ea, ed)) :=
        find?_addr_of_nodup (by simpa [Room.get_all_addrs] using hC) hmem2
      have hroom : (opClose st ea).room =
          { s.ownedPubs.foldl Room.unregister_publisher st.room with
            players := eraseA s.player_id st.room.players } := by
        simp only [opClose, hlook, Room.remove_player_by_addr, hfind,
          foldl_unregister_players]
      have hse : (opClose st ea).sessions = eraseA ea st.sessions := by
        simp [opClose, hlook]
      refine ⟨?_, ?_, ?_, ?_⟩
      · intro q hq
        rw [hroom] at hq
        have hq2 : q ∈ (s.ownedPubs.foldl Room.unregister_publisher st.room).publishers := hq
        rcases (mem_foldl_unregister s.ownedPubs st.room).mp hq2 with ⟨hqo, hqnot⟩
        rcases hA q hqo with ⟨p, hp, hpid, hqown⟩
        by_cases hpa : p.1 = ea
        · have hps : p.2 = s := by
            have hl2 : lookupA ea st.sessions = some p.2 := by
              apply lookupA_of_mem_nodup hD
              rw [← hpa]
              simpa using hp
            rw [hlook] at hl2
            injection hl2 with hl3
            exact hl3.symm
          refine absurd ?_ hqnot
          rw [← hps]
          exact hqown
        · exact ⟨p, by rw [hse]; exact mem_eraseA.mpr ⟨hp, hpa⟩, hpid, hqown⟩
      · intro p hp
        rw [hse] at hp
        rcases mem_eraseA.mp hp with ⟨hpmem, hpne⟩
        rcases hB p hpmem with ⟨e2, he2, he21⟩
        have hpidne : p.2.player_id ≠ s.player_id := by
          intro hh
          rw [hh, he] at he2
          injection he2 with he3
          exact hpne (by rw [← he21, ← he3])
        refine ⟨e2, ?_, he21⟩
        rw [hroom]
        show lookupA p.2.player_id (eraseA s.player_id st.room.players) = some e2
        rw [lookupA_eraseA_ne _ hpidne]
        exact he2
      · have hsub : ((opClose st ea).room.players).Sublist st.room.players := by
          rw [hroom]
          show (eraseA s.player_id st.room.players).Sublist st.room.players
          exact eraseA_sublist _ _
        exact List.Nodup.sublist (List.Sublist.map _ hsub) hC
      · have hsub : (keysA (opClose st ea).sessions).Sublist (keysA st.sessions) := by
          rw [hse]
          exact keysA_sublist_of_sublist (eraseA_sublist _ _)
        exact List.Nodup.sublist hsub hD

theorem inv_step {st st2 : SysSt} (hInv : Inv st) (hs : Step st st2) : Inv st2 := by
  cases hs with
  | join addr freshId proto h1 h2 h3 => exact inv_opJoin st addr freshId proto hInv h1 h2 h3
  | publish addr track => exact inv_opPublish st addr track hInv
  | stopPub addr pubId => exact inv_opStopPublish st addr pubId hInv
  | close addr => exact inv_opClose st addr hInv

theorem inv_reachable (rid th : String) (st : SysSt) (h : Reachable rid th st) : Inv st := by
  induction h with
  | init =>
      refine ⟨?_, ?_, ?_, ?_⟩ <;> simp [Room.new, Room.get_all_addrs, keysA]
  | step st st2 hr hs ih => exact inv_step ih hs

/-- C4: in every state reachable by join, publish, stop-publish and
session-close operations, every player id stored as a value in the room
publisher index is also a key of the player map. -/
theorem room_publishers_reference_players (rid th : String) (st : SysSt)
    (h : Reachable rid th st) :
    ∀ q ∈ st.room.publishers, q.2 ∈ keysA st.room.players := by
  obtain ⟨hA, hB, _, _⟩ := inv_reachable rid th st h
  intro q hq
  rcases hA q hq with ⟨p, hp, hpid, _⟩
  rcases hB p hp with ⟨e, he, _⟩
  refine mem_keysA.mpr ⟨e, ?_⟩
  rw [← hpid]
  exact lookupA_mem he

/-- Witness for C4: a join followed by a publish, where the registered
binding points at the joined player. -/
theorem room_publishers_reference_players_witness :
    ("t1", "p1") ∈
      (opPublish (opJoin ⟨Room.new "focus-den" "Focus Den", []⟩ 7 "p1" samplePlayer)
        7 "t1").room.publishers ∧
    ("p1" : String) ∈ keysA
      (opPublish (opJoin ⟨Room.new "focus-den" "Focus Den", []⟩ 7 "p1" samplePlayer)
        7 "t1").room.players :=
  have hreach : Reachable "focus-den" "Focus Den"
      (opPublish (opJoin ⟨Room.new "focus-den" "Focus Den", []⟩ 7 "p1" samplePlayer) 7 "t1") :=
    Reachable.step _ _
      (Reachable.step _ _ Reachable.init
        (Step.join ⟨Room.new "focus-den" "Focus Den", []⟩ 7 "p1" samplePlayer
          (by simp [Room.new, keysA]) (by simp [Room.new, Room.get_all_addrs])
          (by simp [keysA])))
      (Step.publish _ 7 "t1")
  have hmem : ("t1", "p1") ∈
      (opPublish (opJoin ⟨Room.new "focus-den" "Focus Den", []⟩ 7 "p1" samplePlayer)
        7 "t1").room.publishers := by
    simp [opPublish, opJoin, Room.add_player, Room.register_publisher, Room.new,
      lookupA, insertA, eraseA, lookupA_insertA_self]
  ⟨hmem, room_publishers_reference_players "focus-den" "Focus Den" _ hreach ("t1", "p1") hmem⟩

end Webhangin
